import Mathlib

/-!
Verification of the recommendation core of the `bloom-product-api`
repository against its natural-language specification.

Shallow embedding of:
* `app/services/recommender.py` (`CoOccurenceRecommender`,
  `UserBasedCollaborativeRecommender`),
* `app/services/updater.py` (`Updater`),
* `app/stats.py` (per-product statistics pass).

Modelling conventions:
* NumPy 2-d float arrays are modelled by `SizedMat`: a shape
  (`rows`, `cols`) together with an entry function into `ℚ`
  (Python floats are modelled as rationals).
* MongoDB is modelled by a `DB` snapshot: the list of distinct product
  ids that `products_collection.distinct("id")` returns (in the order
  the driver returns them) and the list of interaction events.
* Python exceptions are modelled by `Except String` results
  (the string names the Python exception class), and by an
  `Option String` error component where the mutated object survives
  the exception (in-place mutation during a failed rebuild).
* `random.sample(range(n), k)` is abstracted by a `sampler` parameter
  providing the drawn indices; its `ValueError` on `k > n` is modelled.
* `sklearn.metrics.pairwise.cosine_similarity` is external library
  code: its numeric values are abstracted by a `cos` parameter, while
  its observable behaviour on empty input (it raises on a matrix with
  zero rows or zero columns) is modelled explicitly.
* `np.argsort` is a comparison sort on indices; the spec documents tie
  order as accepted non-determinism, and it is modelled here with a
  stable insertion sort on indices, ascending, then reversed, exactly
  as `np.argsort(...)[::-1]` is used in the source.
-/

namespace Bloom

/-- `EventModel.action`: either `"view"` or `"click"`
(`app/models.py`; `POST /events` rejects every other value). -/
inductive EvAction where
  | view : EvAction
  | click : EvAction
deriving DecidableEq, Repr

/-- An interaction event (`EventModel` in `app/models.py`).  The
`timestamp` field is omitted: none of the embedded code paths reads it. -/
structure Event where
  user_id : ℕ
  product_id : ℕ
  action : EvAction
deriving DecidableEq, Repr

/-- A snapshot of the two MongoDB collections the recommendation core
reads.  `products` is the sequence of distinct product ids that
`products_collection.distinct("id")` yields, in driver order. -/
structure DB where
  products : List ℕ
  events : List Event

/-- Distinct keys of a list in order of first occurrence.  Models both
`events_collection.distinct("user_id")` and the keys produced by a
Mongo `$group` stage (whose order the driver does not pin down; the
claims proved below do not depend on this order). -/
def distinctKeys (l : List ℕ) : List ℕ :=
  l.foldl (fun acc x => if x ∈ acc then acc else acc ++ [x]) []

/-- A NumPy 2-d array of floats: a shape plus an entry function.
Entries outside the shape are irrelevant (kept at whatever the
function yields); every access in the embedded code is bounds-checked
exactly where NumPy would raise `IndexError`. -/
structure SizedMat where
  rows : ℕ
  cols : ℕ
  entry : ℕ → ℕ → ℚ

/-- `np.zeros((r, c))`. -/
def SizedMat.zeros (r c : ℕ) : SizedMat :=
  ⟨r, c, fun _ _ => 0⟩

/-- `m[i, j] += 1` without a bounds check (used where the indices are
in range by construction). -/
def SizedMat.bump (m : SizedMat) (i j : ℕ) : SizedMat :=
  { m with entry := fun a b => if a = i ∧ b = j then m.entry a b + 1 else m.entry a b }

/-- `m[i, j] += 1` with the NumPy bounds check: on an out-of-range
index the array is left unchanged and `IndexError` is raised. -/
def SizedMat.bumpChecked (m : SizedMat) (i j : ℕ) : SizedMat × Option String :=
  if i < m.rows ∧ j < m.cols then (m.bump i j, none) else (m, some "IndexError")

/-- `np.sum(m[i])`: the sum of row `i` over the row's `cols` entries. -/
def SizedMat.rowSum (m : SizedMat) (i : ℕ) : ℚ :=
  ∑ j ∈ Finset.range m.cols, m.entry i j

/-- Python dict lookup `{product_id: i for i, product_id in enumerate(ids)}[x]`:
the position of `x` in `ids` (ids are distinct in every use). -/
def idLookup (ids : List ℕ) (x : ℕ) : Option ℕ :=
  ids.findIdx? (fun y => y == x)

/-- Python dict lookup `{i: product_id for i, product_id in enumerate(ids)}[i]`,
as `Except` because a missing key raises `KeyError`
(`[self.i_to_product_id[i] for i in idxs]`). -/
def mapIdxToIds (ids : List ℕ) : List ℕ → Except String (List ℕ)
  | [] => .ok []
  | i :: rest =>
    match ids[i]? with
    | none => .error "KeyError"
    | some pid =>
      match mapIdxToIds ids rest with
      | .ok l => .ok (pid :: l)
      | .error e => .error e

/-- Index list sorted ascending by key (`np.argsort`), stably. -/
def argsortAsc (f : ℕ → ℚ) (n : ℕ) : List ℕ :=
  List.insertionSort (fun i j => f i ≤ f j) (List.range n)

/-- `np.argsort(...)[::-1]`: indices by descending key. -/
def argsortDesc (f : ℕ → ℚ) (n : ℕ) : List ℕ :=
  (argsortAsc f n).reverse

/-! ## Co-occurrence recommender (`CoOccurenceRecommender`) -/

/-- The mutable state of a `CoOccurenceRecommender` instance.  The two
index dicts `i_to_product_id` / `product_id_to_i` are both built from
the same distinct-ids sequence and are represented by it (`ids`). -/
structure CoOccState where
  alpha_smoothing : ℚ
  n_products : ℕ
  matrix : SizedMat
  probability_matrix : SizedMat
  ids : List ℕ

/-- `CoOccurenceRecommender.__init__`: empty matrices and mappings. -/
def CoOccState.fresh (alpha : ℚ) : CoOccState :=
  ⟨alpha, 0, SizedMat.zeros 0 0, SizedMat.zeros 0 0, []⟩

/-- The ordered pairs `(products[i], products[j])`, `i < j`, visited by
the double loop of `_update_matrix`. -/
def sessionPairs : List ℕ → List (ℕ × ℕ)
  | [] => []
  | p :: rest => rest.map (fun q => (p, q)) ++ sessionPairs rest

/-- The body of `_update_matrix`: for each pair in order, execute
`self.matrix[p1, p2] += 1` then `self.matrix[p2, p1] += 1`.  NOTE:
`p1`, `p2` are the raw product ids, not dense indices — exactly as in
the source.  On the first out-of-range id the loop aborts with
`IndexError`, keeping the increments already applied (in-place
mutation). -/
def applyPairs (m : SizedMat) : List (ℕ × ℕ) → SizedMat × Option String
  | [] => (m, none)
  | (p1, p2) :: rest =>
    match m.bumpChecked p1 p2 with
    | (m1, some e) => (m1, some e)
    | (m1, none) =>
      match m1.bumpChecked p2 p1 with
      | (m2, some e) => (m2, some e)
      | (m2, none) => applyPairs m2 rest

/-- `CoOccurenceRecommender._update_matrix` on one user session. -/
def updateMatrix (m : SizedMat) (products : List ℕ) : SizedMat × Option String :=
  applyPairs m (sessionPairs products)

/-- `CoOccurenceRecommender._aggregate_data`: fold `_update_matrix`
over the per-user session lists; an exception aborts the fold but the
matrix keeps the increments applied so far. -/
def aggregateSessions (m : SizedMat) : List (List ℕ) → SizedMat × Option String
  | [] => (m, none)
  | s :: rest =>
    match updateMatrix m s with
    | (m1, none) => aggregateSessions m1 rest
    | (m1, some e) => (m1, some e)

/-- The Mongo `$group`-by-`user_id` pipeline of `_aggregate_data`:
one `(user_id, pushed product_id list)` per distinct user. -/
def groupByUser (events : List Event) : List (ℕ × List ℕ) :=
  (distinctKeys (events.map (·.user_id))).map
    (fun u => (u, (events.filter (fun e => e.user_id == u)).map (·.product_id)))

/-- `CoOccurenceRecommender.calculate_probability_matrix`:
`prob_matrix[i] = (row + alpha) / (np.sum(row) + alpha * n)` for
`i < n`, on a `np.zeros_like` base. -/
def calcProbMatrix (alpha : ℚ) (n : ℕ) (m : SizedMat) : SizedMat :=
  ⟨m.rows, m.cols, fun i j =>
    if i < n ∧ j < n then (m.entry i j + alpha) / (m.rowSum i + alpha * n) else 0⟩

/-- `CoOccurenceRecommender._initialize`, made explicit as a state
transformer.  The source mutates `self` field by field:
`n_products` and both index dicts first
(`_get_distinct_products_count`), then a zeroed `matrix`, then the
aggregation, then the probability matrix.  If the aggregation raises,
the already-replaced fields keep their new values and
`probability_matrix` keeps its previous value — there is no swap. -/
def initCoOcc (st : CoOccState) (db : DB) : CoOccState × Option String :=
  let ids := db.products
  let n := ids.length
  let sessions := (groupByUser db.events).map Prod.snd
  match aggregateSessions (SizedMat.zeros n n) sessions with
  | (m, some e) =>
    ({ st with
        n_products := n
        ids := ids
        matrix := m }, some e)
  | (m, none) =>
    ({ st with
        n_products := n
        ids := ids
        matrix := m
        probability_matrix := calcProbMatrix st.alpha_smoothing n m }, none)

/-- The selection loop of `CoOccurenceRecommender.recommend`:
`for rec_id in recommended_ids: if rec_id != product_i: append;`
`if len(recommendations) >= top_n: break`. -/
def pickRecs (product_i top_n : ℕ) : List ℕ → List ℕ → List ℕ
  | [], acc => acc
  | r :: rest, acc =>
    let acc' := if r = product_i then acc else acc ++ [r]
    if top_n ≤ acc'.length then acc' else pickRecs product_i top_n rest acc'

/-- `CoOccurenceRecommender.recommend(product_id, top_n, sample)`.
The id-to-index dict lookup (`KeyError` on an unknown product) and the
probability-row access (`IndexError` if the row is missing) both
happen before the `sample` branch, as in the source.  `sampler n k`
abstracts the indices drawn by `random.sample(range(n), k)`, which
raises `ValueError` when `k > n`. -/
def coRecommend (st : CoOccState) (sampler : ℕ → ℕ → List ℕ)
    (product_id top_n : ℕ) (sample : Bool) : Except String (List ℕ) :=
  match idLookup st.ids product_id with
  | none => .error "KeyError"
  | some product_i =>
    if product_i < st.probability_matrix.rows then
      if sample then
        if top_n ≤ st.n_products then
          mapIdxToIds st.ids (sampler st.n_products top_n)
        else .error "ValueError"
      else
        mapIdxToIds st.ids
          (pickRecs product_i top_n
            (argsortDesc (fun j => st.probability_matrix.entry product_i j)
              st.probability_matrix.cols) [])
    else .error "IndexError"

/-! ## Updater (`app/services/updater.py`) -/

/-- `Updater.update_recommender`: run `_initialize` and swallow any
exception (log only), keeping whatever state the failed mutation left. -/
def updateRecommender (st : CoOccState) (db : DB) : CoOccState :=
  (initCoOcc st db).1

/-- One observable step of a periodic update loop. -/
inductive UpdAction where
  | refreshStats : UpdAction
  | refreshRecommender : UpdAction
  | sleep : ℕ → UpdAction
deriving DecidableEq, Repr

/-- The two configured intervals of `Updater.__init__`. -/
structure Updater where
  stats_refresh_time : ℕ
  recommender_refresh_time : ℕ

/-- One iteration of `Updater.periodic_stats_update`:
`await self.update_stats(); await asyncio.sleep(self.stats_refresh_time)`. -/
def periodicStatsUpdateIter (u : Updater) : List UpdAction :=
  [UpdAction.refreshStats, UpdAction.sleep u.stats_refresh_time]

/-- One iteration of `Updater.periodic_recommender_update`:
`await self.update_recommender(r); await asyncio.sleep(self.stats_refresh_time)`
— the source sleeps `stats_refresh_time` here (updater.py line 38). -/
def periodicRecommenderUpdateIter (u : Updater) : List UpdAction :=
  [UpdAction.refreshRecommender, UpdAction.sleep u.stats_refresh_time]

/-! ## User-based collaborative recommender
(`UserBasedCollaborativeRecommender`) -/

/-- The mutable state of a `UserBasedCollaborativeRecommender`
instance.  The four index dicts are represented by the two distinct-id
sequences they are built from. -/
structure UserState where
  user_ids : List ℕ
  product_ids : List ℕ
  user_item_matrix : SizedMat
  similarity_matrix : SizedMat

/-- `UserBasedCollaborativeRecommender.__init__`. -/
def UserState.fresh : UserState :=
  ⟨[], [], SizedMat.zeros 0 0, SizedMat.zeros 0 0⟩

/-- `_build_user_item_matrix`: stream every event and increment
`U[user_i, product_j]` when both ids are in the current mappings
(events with unmapped ids are skipped).  Looked-up indices are within
the zeroed shape by construction, so no bounds check is needed. -/
def buildUserItemMatrix (user_ids product_ids : List ℕ) (events : List Event) : SizedMat :=
  events.foldl
    (fun m e =>
      match idLookup user_ids e.user_id, idLookup product_ids e.product_id with
      | some i, some j => m.bump i j
      | _, _ => m)
    (SizedMat.zeros user_ids.length product_ids.length)

/-- `_compute_similarity_matrix`: `cosine_similarity(U)` wrapped in
`try/except Exception: pass`.  sklearn raises on an input with zero
rows ("0 sample(s)") or zero columns ("0 feature(s)"); in that case
the exception is swallowed and the similarity matrix keeps its
previous value.  Otherwise the result is the `rows × rows` similarity
matrix, whose (irrational) cosine values are abstracted by `cos`. -/
def computeSimilarityMatrix (st : UserState) (cos : ℕ → ℕ → ℚ) : UserState :=
  if st.user_item_matrix.rows = 0 ∨ st.user_item_matrix.cols = 0 then st
  else { st with similarity_matrix := ⟨st.user_item_matrix.rows, st.user_item_matrix.rows, cos⟩ }

/-- `UserBasedCollaborativeRecommender._initialize`: replace the
mappings, rebuild the user-item matrix, then try to recompute the
similarity matrix.  The mutation is field by field on `self`, so even
when the similarity step fails the new mappings and user-item matrix
are already live. -/
def initUser (st : UserState) (db : DB) (cos : ℕ → ℕ → ℚ) : UserState :=
  let user_ids := distinctKeys (db.events.map (·.user_id))
  let product_ids := db.products
  let st1 := { st with
    user_ids := user_ids
    product_ids := product_ids
    user_item_matrix := buildUserItemMatrix user_ids product_ids db.events }
  computeSimilarityMatrix st1 cos

/-- The `argsort`-and-drop-self step of
`UserBasedCollaborativeRecommender.recommend`:
`similar_users = [i for i in np.argsort(user_similarities)[::-1] if i != user_i]`. -/
def similarUsers (S : SizedMat) (user_i : ℕ) : List ℕ :=
  (argsortDesc (fun v => S.entry user_i v) S.cols).filter (fun v => v != user_i)

/-- The score-accumulation loop of `recommend`:
`for sim_i in similar_users: scores += user_similarities[sim_i] * U[sim_i]`.
Each iteration reads row `sim_i` of `U` (NumPy `IndexError` if out of
range) and adds a length-`k` vector to `scores` (NumPy `ValueError` if
the row length differs from `k`; length-1 broadcasting is not modelled
— no embedded state reaches it). -/
def accumScores (sims : ℕ → ℚ) (U : SizedMat) (k : ℕ) (scores : ℕ → ℚ) :
    List ℕ → Except String (ℕ → ℚ)
  | [] => .ok scores
  | v :: rest =>
    if v < U.rows then
      if U.cols = k then
        accumScores sims U k (fun j => scores j + sims v * U.entry v j) rest
      else .error "ValueError"
    else .error "IndexError"

/-- `UserBasedCollaborativeRecommender.recommend(user_id, top_n)`.
An unknown user returns `[]` (no exception).  Otherwise the similarity
row for the user is read (`IndexError` if the similarity matrix has no
such row), scores over the `len(product_ids)` products are
accumulated, products the user interacted with are masked to `-1`, and
the `top_n` highest-scoring indices with strictly positive score are
mapped back to product ids.  The `aiocache` TTL decorator only
memoises the call and is not modelled. -/
def userRecommend (st : UserState) (user_id top_n : ℕ) : Except String (List ℕ) :=
  match idLookup st.user_ids user_id with
  | none => .ok []
  | some user_i =>
    if user_i < st.similarity_matrix.rows then
      let sims : ℕ → ℚ := fun v => st.similarity_matrix.entry user_i v
      let k := st.product_ids.length
      match accumScores sims st.user_item_matrix k (fun _ => 0)
          (similarUsers st.similarity_matrix user_i) with
      | .error e => .error e
      | .ok scores =>
        if user_i < st.user_item_matrix.rows then
          let masked : ℕ → ℚ := fun j =>
            if 0 < st.user_item_matrix.entry user_i j then -1 else scores j
          let top := (argsortDesc masked k).take top_n
          mapIdxToIds st.product_ids (top.filter (fun i => decide (0 < masked i)))
        else .error "IndexError"
    else .error "IndexError"

/-! ## Per-product statistics (`app/stats.py`) -/

/-- `calculate_ctr`: `clicks / views if views else 0.0`. -/
def calculate_ctr (clicks views : ℕ) : ℚ :=
  if views = 0 then 0 else (clicks : ℚ) / views

/-- `calculate_bounce_rate`:
`(views - clicks) / views if views and views >= clicks else 0.0`. -/
def calculate_bounce_rate (clicks views : ℕ) : ℚ :=
  if views ≠ 0 ∧ clicks ≤ views then ((views : ℚ) - clicks) / views else 0

/-- `calculate_engagement`: `clicks + views`. -/
def calculate_engagement (clicks views : ℕ) : ℕ :=
  clicks + views

/-- One row of the `compute_stats` result (the `last_updated` wall
clock field is omitted). -/
structure ProductStats where
  product_id : ℕ
  views : ℕ
  clicks : ℕ
  ctr : ℚ
  bounce_rate : ℚ
  engagement : ℕ
  unique_view_count : ℕ
  unique_click_count : ℕ
deriving DecidableEq, Repr

/-- `compute_stats`: group events by `product_id`; per product count
`view` and `click` actions, distinct users per action (the pipeline
drops the `None` placeholder, and `user_id` is a non-null int in the
model), and derive ctr / bounce rate / engagement. -/
def computeStats (events : List Event) : List ProductStats :=
  (distinctKeys (events.map (·.product_id))).map (fun pid =>
    let es := events.filter (fun e => e.product_id == pid)
    let views := (es.filter (fun e => e.action == EvAction.view)).length
    let clicks := (es.filter (fun e => e.action == EvAction.click)).length
    { product_id := pid
      views := views
      clicks := clicks
      ctr := calculate_ctr clicks views
      bounce_rate := calculate_bounce_rate clicks views
      engagement := calculate_engagement clicks views
      unique_view_count :=
        (distinctKeys ((es.filter (fun e => e.action == EvAction.view)).map (·.user_id))).length
      unique_click_count :=
        (distinctKeys ((es.filter (fun e => e.action == EvAction.click)).map (·.user_id))).length })

/-! ## Helper lemmas about the embedded operations -/

theorem idLookup_getElem? :
    ∀ (l : List ℕ) (x i : ℕ), idLookup l x = some i → l[i]? = some x := by
  intro l
  induction l with
  | nil =>
    intro x i h
    simp [idLookup, List.findIdx?_nil] at h
  | cons a as ih =>
    intro x i h
    unfold idLookup at h
    rw [List.findIdx?_cons] at h
    by_cases hax : (a == x) = true
    · rw [if_pos hax] at h
      cases h
      simpa using (beq_iff_eq.mp hax)
    · rw [if_neg hax, List.findIdx?_succ] at h
      rcases Option.map_eq_some'.mp h with ⟨j, hj, hji⟩
      subst hji
      simpa using ih x j hj

theorem idLookup_lt {l : List ℕ} {x i : ℕ} (h : idLookup l x = some i) :
    i < l.length :=
  (List.getElem?_eq_some.mp (idLookup_getElem? l x i h)).1

theorem idLookup_eq_none_iff {l : List ℕ} {x : ℕ} :
    idLookup l x = none ↔ x ∉ l := by
  unfold idLookup
  rw [List.findIdx?_eq_none_iff]
  constructor
  · intro h hx
    simpa using h x hx
  · intro hx y hy
    simp only [beq_eq_false_iff_ne, ne_eq]
    intro hyx
    exact hx (hyx ▸ hy)

theorem idLookup_isSome_of_mem {l : List ℕ} {x : ℕ} (h : x ∈ l) :
    ∃ i, idLookup l x = some i := by
  cases hl : idLookup l x with
  | none => exact absurd h (idLookup_eq_none_iff.mp hl)
  | some i => exact ⟨i, rfl⟩

theorem idLookup_of_getElem? {l : List ℕ} {x i : ℕ} (hnd : l.Nodup)
    (h : l[i]? = some x) : idLookup l x = some i := by
  obtain ⟨j, hj⟩ := idLookup_isSome_of_mem (List.getElem?_mem h)
  have hjx := idLookup_getElem? l x j hj
  obtain ⟨hilen, hig⟩ := List.getElem?_eq_some.mp h
  obtain ⟨hjlen, hjg⟩ := List.getElem?_eq_some.mp hjx
  have hfin : (⟨j, hjlen⟩ : Fin l.length) = ⟨i, hilen⟩ :=
    hnd.get_inj_iff.mp (by
      show l.get ⟨j, hjlen⟩ = l.get ⟨i, hilen⟩
      simp only [List.get_eq_getElem]
      rw [hig, hjg])
  have hji : j = i := congrArg Fin.val hfin
  subst hji
  exact hj

theorem mapIdxToIds_ok (ids : List ℕ) :
    ∀ (idxs : List ℕ), (∀ i ∈ idxs, i < ids.length) →
      ∃ l, mapIdxToIds ids idxs = .ok l ∧ l.length = idxs.length ∧
        ∀ x ∈ l, ∃ i, i ∈ idxs ∧ ids[i]? = some x := by
  intro idxs
  induction idxs with
  | nil =>
    intro _
    exact ⟨[], rfl, rfl, by simp⟩
  | cons i rest ih =>
    intro h
    have hi : i < ids.length := h i (by simp)
    obtain ⟨l, hok, hlen, hmem⟩ := ih (fun j hj => h j (by simp [hj]))
    refine ⟨ids[i] :: l, ?_, by simp [hlen], ?_⟩
    · unfold mapIdxToIds
      rw [List.getElem?_eq_getElem hi, hok]
    · intro x hx
      rcases List.mem_cons.mp hx with hx | hx
      · exact ⟨i, by simp, by rw [hx]; exact List.getElem?_eq_getElem hi⟩
      · obtain ⟨j, hj, hjx⟩ := hmem x hx
        exact ⟨j, by simp [hj], hjx⟩

theorem mapIdxToIds_mem {ids : List ℕ} :
    ∀ {idxs l : List ℕ}, mapIdxToIds ids idxs = .ok l →
      ∀ x ∈ l, ∃ i, i ∈ idxs ∧ ids[i]? = some x := by
  intro idxs
  induction idxs with
  | nil =>
    intro l h x hx
    cases h
    simp at hx
  | cons i rest ih =>
    intro l h x hx
    unfold mapIdxToIds at h
    cases hg : ids[i]? with
    | none => rw [hg] at h; cases h
    | some pid =>
      rw [hg] at h
      cases hr : mapIdxToIds ids rest with
      | error e => rw [hr] at h; cases h
      | ok l' =>
        rw [hr] at h
        cases h
        rcases List.mem_cons.mp hx with hx | hx
        · exact ⟨i, by simp, hx ▸ hg⟩
        · obtain ⟨j, hj, hjx⟩ := ih hr x hx
          exact ⟨j, by simp [hj], hjx⟩

theorem argsortDesc_perm (f : ℕ → ℚ) (n : ℕ) :
    (argsortDesc f n).Perm (List.range n) :=
  ((argsortAsc f n).reverse_perm).trans (List.perm_insertionSort _ _)

theorem argsortDesc_length (f : ℕ → ℚ) (n : ℕ) :
    (argsortDesc f n).length = n := by
  rw [(argsortDesc_perm f n).length_eq, List.length_range]

theorem argsortDesc_mem {f : ℕ → ℚ} {n i : ℕ} :
    i ∈ argsortDesc f n ↔ i < n := by
  rw [(argsortDesc_perm f n).mem_iff, List.mem_range]

theorem pickRecs_cons (p t r : ℕ) (rest acc : List ℕ) :
    pickRecs p t (r :: rest) acc =
      if t ≤ (if r = p then acc else acc ++ [r]).length then
        (if r = p then acc else acc ++ [r])
      else pickRecs p t rest (if r = p then acc else acc ++ [r]) := rfl

theorem pickRecs_mem {p t : ℕ} :
    ∀ (rest acc : List ℕ) (x : ℕ), x ∈ pickRecs p t rest acc →
      x ∈ acc ∨ x ∈ rest := by
  intro rest
  induction rest with
  | nil =>
    intro acc x h
    exact Or.inl h
  | cons r rs ih =>
    intro acc x h
    rw [pickRecs_cons] at h
    by_cases hr : r = p
    · rw [if_pos hr] at h
      split at h
      · exact Or.inl h
      · rcases ih acc x h with h | h
        · exact Or.inl h
        · exact Or.inr (by simp [h])
    · rw [if_neg hr] at h
      split at h
      · rcases List.mem_append.mp h with h | h
        · exact Or.inl h
        · simp at h
          exact Or.inr (by simp [h])
      · rcases ih (acc ++ [r]) x h with h | h
        · rcases List.mem_append.mp h with h | h
          · exact Or.inl h
          · simp at h
            exact Or.inr (by simp [h])
        · exact Or.inr (by simp [h])

theorem pickRecs_not_self {p t : ℕ} :
    ∀ (rest acc : List ℕ), p ∉ acc → p ∉ pickRecs p t rest acc := by
  intro rest
  induction rest with
  | nil =>
    intro acc h
    exact h
  | cons r rs ih =>
    intro acc h
    rw [pickRecs_cons]
    by_cases hr : r = p
    · rw [if_pos hr]
      split
      · exact h
      · exact ih acc h
    · rw [if_neg hr]
      have h' : p ∉ acc ++ [r] := by
        simp only [List.mem_append, List.mem_singleton]
        rintro (hc | hc)
        · exact h hc
        · exact hr hc.symm
      split
      · exact h'
      · exact ih _ h'

theorem pickRecs_length {p t : ℕ} :
    ∀ (rest acc : List ℕ), acc.length < t →
      (pickRecs p t rest acc).length =
        min t (acc.length + (rest.filter (fun r => r != p)).length) := by
  intro rest
  induction rest with
  | nil =>
    intro acc hacc
    unfold pickRecs
    simp
    omega
  | cons r rs ih =>
    intro acc hacc
    rw [pickRecs_cons]
    by_cases hr : r = p
    · rw [if_pos hr]
      rw [if_neg (by omega)]
      rw [ih acc hacc]
      simp [hr]
    · rw [if_neg hr]
      have hfl : ((r :: rs).filter (fun x => x != p)).length =
          1 + (rs.filter (fun x => x != p)).length := by
        simp [List.filter_cons, hr]
        omega
      by_cases hstop : t ≤ (acc ++ [r]).length
      · rw [if_pos hstop]
        simp only [List.length_append, List.length_singleton] at hstop ⊢
        rw [hfl]
        omega
      · rw [if_neg hstop]
        rw [ih (acc ++ [r]) (by simpa using by simp at hstop; omega)]
        simp only [List.length_append, List.length_singleton]
        rw [hfl]
        omega

theorem bumpChecked_pos {m : SizedMat} {i j : ℕ} (h : i < m.rows ∧ j < m.cols) :
    m.bumpChecked i j = (m.bump i j, none) := by
  unfold SizedMat.bumpChecked
  rw [if_pos h]

theorem bumpChecked_neg {m : SizedMat} {i j : ℕ} (h : ¬(i < m.rows ∧ j < m.cols)) :
    m.bumpChecked i j = (m, some "IndexError") := by
  unfold SizedMat.bumpChecked
  rw [if_neg h]

theorem applyPairs_cons (m : SizedMat) (p1 p2 : ℕ) (rest : List (ℕ × ℕ)) :
    applyPairs m ((p1, p2) :: rest) =
      if p1 < m.rows ∧ p2 < m.cols then
        if p2 < m.rows ∧ p1 < m.cols then
          applyPairs ((m.bump p1 p2).bump p2 p1) rest
        else (m.bump p1 p2, some "IndexError")
      else (m, some "IndexError") := by
  show (match m.bumpChecked p1 p2 with
    | (m1, some e) => (m1, some e)
    | (m1, none) =>
      match m1.bumpChecked p2 p1 with
      | (m2, some e) => (m2, some e)
      | (m2, none) => applyPairs m2 rest) = _
  by_cases h1 : p1 < m.rows ∧ p2 < m.cols
  · rw [bumpChecked_pos h1]
    show (match (m.bump p1 p2).bumpChecked p2 p1 with
      | (m2, some e) => (m2, some e)
      | (m2, none) => applyPairs m2 rest) = _
    by_cases h2 : p2 < m.rows ∧ p1 < m.cols
    · rw [show (m.bump p1 p2).bumpChecked p2 p1 = ((m.bump p1 p2).bump p2 p1, none) from
        bumpChecked_pos ⟨h2.1, h2.2⟩]
      rw [if_pos h1, if_pos h2]
    · rw [show (m.bump p1 p2).bumpChecked p2 p1 = (m.bump p1 p2, some "IndexError") from
        bumpChecked_neg (fun hc => h2 ⟨hc.1, hc.2⟩)]
      rw [if_pos h1, if_neg h2]
  · rw [bumpChecked_neg h1, if_neg h1]

theorem aggregateSessions_cons (m : SizedMat) (s : List ℕ) (rest : List (List ℕ)) :
    aggregateSessions m (s :: rest) =
      match updateMatrix m s with
      | (m1, none) => aggregateSessions m1 rest
      | (m1, some e) => (m1, some e) := rfl

theorem applyPairs_shape (ps : List (ℕ × ℕ)) :
    ∀ m : SizedMat,
      (applyPairs m ps).1.rows = m.rows ∧ (applyPairs m ps).1.cols = m.cols := by
  induction ps with
  | nil => intro m; exact ⟨rfl, rfl⟩
  | cons pr rest ih =>
    intro m
    obtain ⟨p1, p2⟩ := pr
    rw [applyPairs_cons]
    by_cases h1 : p1 < m.rows ∧ p2 < m.cols
    · rw [if_pos h1]
      by_cases h2 : p2 < m.rows ∧ p1 < m.cols
      · rw [if_pos h2]
        exact ih ((m.bump p1 p2).bump p2 p1)
      · rw [if_neg h2]
        exact ⟨rfl, rfl⟩
    · rw [if_neg h1]
      exact ⟨rfl, rfl⟩

theorem aggregateSessions_shape (ss : List (List ℕ)) :
    ∀ m : SizedMat,
      (aggregateSessions m ss).1.rows = m.rows ∧
      (aggregateSessions m ss).1.cols = m.cols := by
  induction ss with
  | nil => intro m; exact ⟨rfl, rfl⟩
  | cons s rest ih =>
    intro m
    rcases hu : updateMatrix m s with ⟨m1, e⟩
    rw [aggregateSessions_cons, hu]
    have hs : m1.rows = m.rows ∧ m1.cols = m.cols := by
      have := applyPairs_shape (sessionPairs s) m
      rw [show applyPairs m (sessionPairs s) = updateMatrix m s from rfl, hu] at this
      exact this
    cases e with
    | none =>
      obtain ⟨ha, hb⟩ := ih m1
      exact ⟨by rw [ha, hs.1], by rw [hb, hs.2]⟩
    | some e => exact hs

theorem bump_nonneg {m : SizedMat} (h : ∀ i j, 0 ≤ m.entry i j) (a b : ℕ) :
    ∀ i j, 0 ≤ (m.bump a b).entry i j := by
  intro i j
  unfold SizedMat.bump
  dsimp only
  split
  · exact add_nonneg (h i j) zero_le_one
  · exact h i j

theorem applyPairs_nonneg (ps : List (ℕ × ℕ)) :
    ∀ m : SizedMat, (∀ i j, 0 ≤ m.entry i j) →
      ∀ i j, 0 ≤ (applyPairs m ps).1.entry i j := by
  induction ps with
  | nil => intro m h; exact h
  | cons pr rest ih =>
    intro m h
    obtain ⟨p1, p2⟩ := pr
    rw [applyPairs_cons]
    by_cases h1 : p1 < m.rows ∧ p2 < m.cols
    · rw [if_pos h1]
      by_cases h2 : p2 < m.rows ∧ p1 < m.cols
      · rw [if_pos h2]
        exact ih _ (bump_nonneg (bump_nonneg h p1 p2) p2 p1)
      · rw [if_neg h2]
        exact bump_nonneg h p1 p2
    · rw [if_neg h1]
      exact h

theorem aggregateSessions_nonneg (ss : List (List ℕ)) :
    ∀ m : SizedMat, (∀ i j, 0 ≤ m.entry i j) →
      ∀ i j, 0 ≤ (aggregateSessions m ss).1.entry i j := by
  induction ss with
  | nil => intro m h; exact h
  | cons s rest ih =>
    intro m h
    rcases hu : updateMatrix m s with ⟨m1, e⟩
    rw [aggregateSessions_cons, hu]
    have hm1 : ∀ i j, 0 ≤ m1.entry i j := by
      have := applyPairs_nonneg (sessionPairs s) m h
      rw [show applyPairs m (sessionPairs s) = updateMatrix m s from rfl, hu] at this
      exact this
    cases e with
    | none => exact ih m1 hm1
    | some e => exact hm1

theorem bump_symm {m : SizedMat} (h : ∀ i j, m.entry i j = m.entry j i) (p1 p2 : ℕ) :
    ∀ i j, ((m.bump p1 p2).bump p2 p1).entry i j =
      ((m.bump p1 p2).bump p2 p1).entry j i := by
  intro i j
  unfold SizedMat.bump
  dsimp only
  split_ifs <;> tauto

theorem bump_diag {m : SizedMat} (h : ∀ i, m.entry i i = 0) {p1 p2 : ℕ}
    (hne : p1 ≠ p2) : ∀ i, (m.bump p1 p2).entry i i = 0 := by
  intro i
  unfold SizedMat.bump
  dsimp only
  split
  · exact absurd (by omega : p1 = p2) hne
  · exact h i

theorem applyPairs_symm (ps : List (ℕ × ℕ)) :
    ∀ m : SizedMat, m.rows = m.cols →
      (∀ i j, m.entry i j = m.entry j i) →
      ∀ i j, (applyPairs m ps).1.entry i j = (applyPairs m ps).1.entry j i := by
  induction ps with
  | nil => intro m _ h; exact h
  | cons pr rest ih =>
    intro m hsq h
    obtain ⟨p1, p2⟩ := pr
    rw [applyPairs_cons]
    by_cases h1 : p1 < m.rows ∧ p2 < m.cols
    · rw [if_pos h1, if_pos ⟨by omega, by omega⟩]
      exact ih _ hsq (bump_symm h p1 p2)
    · rw [if_neg h1]
      exact h

theorem applyPairs_diag (ps : List (ℕ × ℕ)) :
    ∀ m : SizedMat, (∀ pr ∈ ps, pr.1 ≠ pr.2) →
      (∀ i, m.entry i i = 0) →
      ∀ i, (applyPairs m ps).1.entry i i = 0 := by
  induction ps with
  | nil => intro m _ h; exact h
  | cons pr rest ih =>
    intro m hps h
    obtain ⟨p1, p2⟩ := pr
    have hne : p1 ≠ p2 := hps (p1, p2) (by simp)
    rw [applyPairs_cons]
    by_cases h1 : p1 < m.rows ∧ p2 < m.cols
    · rw [if_pos h1]
      by_cases h2 : p2 < m.rows ∧ p1 < m.cols
      · rw [if_pos h2]
        exact ih _ (fun q hq => hps q (by simp [hq]))
          (bump_diag (bump_diag h hne) (Ne.symm hne))
      · rw [if_neg h2]
        exact bump_diag h hne
    · rw [if_neg h1]
      exact h

theorem sessionPairs_ne {s : List ℕ} (h : s.Nodup) :
    ∀ pr ∈ sessionPairs s, pr.1 ≠ pr.2 := by
  induction s with
  | nil => intro pr hpr; simp [sessionPairs] at hpr
  | cons a rest ih =>
    intro pr hpr
    unfold sessionPairs at hpr
    rcases List.mem_append.mp hpr with hpr | hpr
    · obtain ⟨q, hq, hqe⟩ := List.mem_map.mp hpr
      subst hqe
      intro hcontra
      exact (List.nodup_cons.mp h).1 ((show a = q from hcontra) ▸ hq)
    · exact ih (List.nodup_cons.mp h).2 pr hpr

theorem aggregateSessions_symm (ss : List (List ℕ)) :
    ∀ m : SizedMat, m.rows = m.cols →
      (∀ i j, m.entry i j = m.entry j i) →
      ∀ i j, (aggregateSessions m ss).1.entry i j =
        (aggregateSessions m ss).1.entry j i := by
  induction ss with
  | nil => intro m _ h; exact h
  | cons s rest ih =>
    intro m hsq h
    rcases hu : updateMatrix m s with ⟨m1, e⟩
    rw [aggregateSessions_cons, hu]
    have hshape : m1.rows = m.rows ∧ m1.cols = m.cols := by
      have := applyPairs_shape (sessionPairs s) m
      rw [show applyPairs m (sessionPairs s) = updateMatrix m s from rfl, hu] at this
      exact this
    have hm1 : ∀ i j, m1.entry i j = m1.entry j i := by
      have := applyPairs_symm (sessionPairs s) m hsq h
      rw [show applyPairs m (sessionPairs s) = updateMatrix m s from rfl, hu] at this
      exact this
    cases e with
    | none => exact ih m1 (by rw [hshape.1, hshape.2, hsq]) hm1
    | some e => exact hm1

theorem aggregateSessions_diag (ss : List (List ℕ)) :
    ∀ m : SizedMat, (∀ s ∈ ss, s.Nodup) →
      (∀ i, m.entry i i = 0) →
      ∀ i, (aggregateSessions m ss).1.entry i i = 0 := by
  induction ss with
  | nil => intro m _ h; exact h
  | cons s rest ih =>
    intro m hss h
    rcases hu : updateMatrix m s with ⟨m1, e⟩
    rw [aggregateSessions_cons, hu]
    have hm1 : ∀ i, m1.entry i i = 0 := by
      have := applyPairs_diag (sessionPairs s) m
        (sessionPairs_ne (hss s (by simp))) h
      rw [show applyPairs m (sessionPairs s) = updateMatrix m s from rfl, hu] at this
      exact this
    cases e with
    | none => exact ih m1 (fun q hq => hss q (by simp [hq])) hm1
    | some e => exact hm1

theorem initCoOcc_eq (st : CoOccState) (db : DB) :
    initCoOcc st db =
      (match aggregateSessions
          (SizedMat.zeros db.products.length db.products.length)
          ((groupByUser db.events).map Prod.snd) with
       | (m, some e) =>
        ({ st with
            n_products := db.products.length
            ids := db.products
            matrix := m }, some e)
       | (m, none) =>
        ({ st with
            n_products := db.products.length
            ids := db.products
            matrix := m
            probability_matrix :=
              calcProbMatrix st.alpha_smoothing db.products.length m }, none)) := rfl

theorem initCoOcc_fail {st0 st : CoOccState} {db : DB} {e : String}
    (h : initCoOcc st0 db = (st, some e)) :
    st.probability_matrix = st0.probability_matrix ∧
    st.alpha_smoothing = st0.alpha_smoothing ∧
    st.ids = db.products ∧
    st.n_products = db.products.length := by
  rw [initCoOcc_eq] at h
  rcases hagg : aggregateSessions
      (SizedMat.zeros db.products.length db.products.length)
      ((groupByUser db.events).map Prod.snd) with ⟨m, e'⟩
  rw [hagg] at h
  cases e' with
  | none =>
    exact absurd (congrArg Prod.snd h) (by simp)
  | some e'' =>
    dsimp only at h
    rw [Prod.mk.injEq] at h
    rw [← h.1]
    exact ⟨rfl, rfl, rfl, rfl⟩

theorem initCoOcc_ok {st0 st : CoOccState} {db : DB}
    (h : initCoOcc st0 db = (st, none)) :
    st.ids = db.products ∧
    st.n_products = db.products.length ∧
    st.alpha_smoothing = st0.alpha_smoothing ∧
    st.matrix = (aggregateSessions
      (SizedMat.zeros db.products.length db.products.length)
      ((groupByUser db.events).map Prod.snd)).1 ∧
    st.probability_matrix =
      calcProbMatrix st0.alpha_smoothing db.products.length st.matrix := by
  rw [initCoOcc_eq] at h
  rcases hagg : aggregateSessions
      (SizedMat.zeros db.products.length db.products.length)
      ((groupByUser db.events).map Prod.snd) with ⟨m, e'⟩
  rw [hagg] at h
  cases e' with
  | none =>
    dsimp only at h
    rw [Prod.mk.injEq] at h
    rw [← h.1]
    exact ⟨rfl, rfl, rfl, rfl, rfl⟩
  | some e'' =>
    exact absurd (congrArg Prod.snd h) (by simp)

theorem initCoOcc_matrix_eq (st : CoOccState) (db : DB) :
    (initCoOcc st db).1.matrix =
      (aggregateSessions
        (SizedMat.zeros db.products.length db.products.length)
        ((groupByUser db.events).map Prod.snd)).1 := by
  rw [initCoOcc_eq]
  rcases aggregateSessions
      (SizedMat.zeros db.products.length db.products.length)
      ((groupByUser db.events).map Prod.snd) with ⟨m, e⟩
  cases e <;> rfl

theorem initCoOcc_matrix_shape (st : CoOccState) (db : DB) :
    (initCoOcc st db).1.matrix.rows = db.products.length ∧
    (initCoOcc st db).1.matrix.cols = db.products.length := by
  rw [initCoOcc_matrix_eq]
  exact aggregateSessions_shape _ _

theorem initCoOcc_matrix_nonneg (st : CoOccState) (db : DB) :
    ∀ i j, 0 ≤ (initCoOcc st db).1.matrix.entry i j := by
  rw [initCoOcc_matrix_eq]
  exact aggregateSessions_nonneg _ _ (fun _ _ => le_refl 0)

theorem mapIdxToIds_length {ids : List ℕ} :
    ∀ {idxs l : List ℕ}, mapIdxToIds ids idxs = .ok l → l.length = idxs.length := by
  intro idxs
  induction idxs with
  | nil =>
    intro l h
    cases h
    rfl
  | cons i rest ih =>
    intro l h
    unfold mapIdxToIds at h
    cases hg : ids[i]? with
    | none => rw [hg] at h; cases h
    | some pid =>
      rw [hg] at h
      cases hr : mapIdxToIds ids rest with
      | error e => rw [hr] at h; cases h
      | ok l' =>
        rw [hr] at h
        cases h
        simp [ih hr]

theorem mem_foldl_distinct {x : ℕ} :
    ∀ (l acc : List ℕ),
      x ∈ l.foldl (fun acc y => if y ∈ acc then acc else acc ++ [y]) acc ↔
        x ∈ acc ∨ x ∈ l := by
  intro l
  induction l with
  | nil =>
    intro acc
    simp
  | cons a as ih =>
    intro acc
    rw [List.foldl_cons, ih]
    by_cases ha : a ∈ acc
    · rw [if_pos ha]
      constructor
      · rintro (h | h)
        · exact Or.inl h
        · exact Or.inr (by simp [h])
      · rintro (h | h)
        · exact Or.inl h
        · rcases List.mem_cons.mp h with h | h
          · exact Or.inl (h ▸ ha)
          · exact Or.inr h
    · rw [if_neg ha]
      constructor
      · rintro (h | h)
        · rcases List.mem_append.mp h with h | h
          · exact Or.inl h
          · simp at h
            exact Or.inr (by simp [h])
        · exact Or.inr (by simp [h])
      · rintro (h | h)
        · exact Or.inl (by simp [h])
        · rcases List.mem_cons.mp h with h | h
          · exact Or.inl (by simp [h])
          · exact Or.inr h

theorem mem_distinctKeys {l : List ℕ} {x : ℕ} :
    x ∈ distinctKeys l ↔ x ∈ l := by
  unfold distinctKeys
  rw [mem_foldl_distinct]
  simp

theorem length_filter_ne_range {n i : ℕ} (hi : i < n) :
    ((List.range n).filter (fun r => r != i)).length = n - 1 := by
  induction n with
  | zero => omega
  | succ k ih =>
    rw [List.range_succ, List.filter_append]
    by_cases hik : i = k
    · subst hik
      have h1 : (List.range i).filter (fun r => r != i) = List.range i := by
        refine List.filter_eq_self.mpr ?_
        intro a ha
        simp only [bne_iff_ne, ne_eq]
        exact Nat.ne_of_lt (List.mem_range.mp ha)
      have h2 : [i].filter (fun r => r != i) = [] := by simp
      rw [h1, h2]
      simp
    · have hik' : i < k := by omega
      have h2 : [k].filter (fun r => r != i) = [k] := by
        simp only [List.filter_cons]
        rw [if_pos (by simpa using Ne.symm hik)]
        rfl
      rw [h2, List.length_append, ih hik']
      simp
      omega

theorem initCoOcc_ok_shapes {st0 st : CoOccState} {db : DB}
    (h : initCoOcc st0 db = (st, none)) :
    st.ids = db.products ∧
    st.n_products = db.products.length ∧
    st.probability_matrix.rows = db.products.length ∧
    st.probability_matrix.cols = db.products.length := by
  obtain ⟨hids, hn, _, hmat, hprob⟩ := initCoOcc_ok h
  have hshape : st.matrix.rows = db.products.length ∧
      st.matrix.cols = db.products.length := by
    rw [hmat]
    exact aggregateSessions_shape _ _
  refine ⟨hids, hn, ?_, ?_⟩
  · rw [hprob]
    exact hshape.1
  · rw [hprob]
    exact hshape.2

theorem coRecommend_lookup_none {st : CoOccState} {sampler : ℕ → ℕ → List ℕ}
    {pid top_n : ℕ} {sample : Bool} (h : idLookup st.ids pid = none) :
    coRecommend st sampler pid top_n sample = .error "KeyError" := by
  unfold coRecommend
  rw [h]

theorem coRecommend_lookup_some {st : CoOccState} {sampler : ℕ → ℕ → List ℕ}
    {pid top_n i : ℕ} {sample : Bool} (h : idLookup st.ids pid = some i) :
    coRecommend st sampler pid top_n sample =
      if i < st.probability_matrix.rows then
        (if sample then
          (if top_n ≤ st.n_products then
            mapIdxToIds st.ids (sampler st.n_products top_n)
          else .error "ValueError")
        else
          mapIdxToIds st.ids
            (pickRecs i top_n
              (argsortDesc (fun j => st.probability_matrix.entry i j)
                st.probability_matrix.cols) []))
      else .error "IndexError" := by
  unfold coRecommend
  rw [h]

theorem userRecommend_lookup_none {st : UserState} {uid top_n : ℕ}
    (h : idLookup st.user_ids uid = none) :
    userRecommend st uid top_n = .ok [] := by
  unfold userRecommend
  rw [h]

theorem userRecommend_lookup_some {st : UserState} {uid top_n i : ℕ}
    (h : idLookup st.user_ids uid = some i) :
    userRecommend st uid top_n =
      if i < st.similarity_matrix.rows then
        (match accumScores (fun v => st.similarity_matrix.entry i v)
            st.user_item_matrix st.product_ids.length (fun _ => 0)
            (similarUsers st.similarity_matrix i) with
        | .error e => .error e
        | .ok scores =>
          if i < st.user_item_matrix.rows then
            mapIdxToIds st.product_ids
              (((argsortDesc
                  (fun j => if 0 < st.user_item_matrix.entry i j then -1 else scores j)
                  st.product_ids.length).take top_n).filter
                (fun idx => decide
                  (0 < (if 0 < st.user_item_matrix.entry i idx then -1 else scores idx))))
          else .error "IndexError")
      else .error "IndexError" := by
  unfold userRecommend
  rw [h]

theorem computeSimilarityMatrix_keeps (st : UserState) (cos : ℕ → ℕ → ℚ) :
    (computeSimilarityMatrix st cos).user_ids = st.user_ids ∧
    (computeSimilarityMatrix st cos).product_ids = st.product_ids ∧
    (computeSimilarityMatrix st cos).user_item_matrix = st.user_item_matrix := by
  unfold computeSimilarityMatrix
  split
  · exact ⟨rfl, rfl, rfl⟩
  · exact ⟨rfl, rfl, rfl⟩

theorem initUser_fields (st : UserState) (db : DB) (cos : ℕ → ℕ → ℚ) :
    (initUser st db cos).user_ids = distinctKeys (db.events.map (·.user_id)) ∧
    (initUser st db cos).product_ids = db.products ∧
    (initUser st db cos).user_item_matrix =
      buildUserItemMatrix (distinctKeys (db.events.map (·.user_id)))
        db.products db.events := by
  unfold initUser
  exact computeSimilarityMatrix_keeps _ _

theorem buildUserItemMatrix_shape (u p : List ℕ) (events : List Event) :
    (buildUserItemMatrix u p events).rows = u.length ∧
    (buildUserItemMatrix u p events).cols = p.length := by
  unfold buildUserItemMatrix
  suffices h : ∀ (evs : List Event) (m : SizedMat),
      ((evs.foldl (fun m e =>
        match idLookup u e.user_id, idLookup p e.product_id with
        | some i, some j => m.bump i j
        | _, _ => m) m).rows = m.rows ∧
      (evs.foldl (fun m e =>
        match idLookup u e.user_id, idLookup p e.product_id with
        | some i, some j => m.bump i j
        | _, _ => m) m).cols = m.cols) by
    exact h events (SizedMat.zeros u.length p.length)
  intro evs
  induction evs with
  | nil => intro m; exact ⟨rfl, rfl⟩
  | cons e rest ih =>
    intro m
    rw [List.foldl_cons]
    rcases idLookup u e.user_id with _ | i <;>
      rcases idLookup p e.product_id with _ | j <;>
      exact ih _

/-! ## Claims -/

/-- C1 (amended): a failed co-occurrence rebuild does not leave the
previously built state live.  `_initialize` mutates the recommender
field by field, so when the aggregation raises, the index mappings and
product count have already been replaced by the new snapshot's and the
matrix is the partially rebuilt one, while `probability_matrix` still
holds the last successfully built value — a mixed state.
`Updater.update_recommender` swallows the exception and leaves exactly
this mixed state as the live state seen by queries. -/
theorem C1_failed_rebuild_leaves_mixed_state (st0 st : CoOccState) (db : DB)
    (e : String) (h : initCoOcc st0 db = (st, some e)) :
    st.probability_matrix = st0.probability_matrix ∧
    st.ids = db.products ∧
    st.n_products = db.products.length ∧
    updateRecommender st0 db = st := by
  obtain ⟨h1, _, h3, h4⟩ := initCoOcc_fail h
  refine ⟨h1, h3, h4, ?_⟩
  unfold updateRecommender
  rw [h]

/-- Witness for C1 (amended): a rebuild over catalog `[0]` with an
event on the unmapped product id 5 fails, and the failed rebuild has
already replaced the mappings while keeping the old probability
matrix. -/
theorem C1_failed_rebuild_witness :
    initCoOcc (CoOccState.fresh 1)
        ⟨[0], [⟨1, 0, EvAction.view⟩, ⟨1, 5, EvAction.view⟩]⟩ =
      ((initCoOcc (CoOccState.fresh 1)
        ⟨[0], [⟨1, 0, EvAction.view⟩, ⟨1, 5, EvAction.view⟩]⟩).1, some "IndexError") ∧
    ((initCoOcc (CoOccState.fresh 1)
        ⟨[0], [⟨1, 0, EvAction.view⟩, ⟨1, 5, EvAction.view⟩]⟩).1.probability_matrix =
      (CoOccState.fresh 1).probability_matrix ∧
    (initCoOcc (CoOccState.fresh 1)
        ⟨[0], [⟨1, 0, EvAction.view⟩, ⟨1, 5, EvAction.view⟩]⟩).1.ids = [0] ∧
    (initCoOcc (CoOccState.fresh 1)
        ⟨[0], [⟨1, 0, EvAction.view⟩, ⟨1, 5, EvAction.view⟩]⟩).1.n_products = 1 ∧
    updateRecommender (CoOccState.fresh 1)
        ⟨[0], [⟨1, 0, EvAction.view⟩, ⟨1, 5, EvAction.view⟩]⟩ =
      (initCoOcc (CoOccState.fresh 1)
        ⟨[0], [⟨1, 0, EvAction.view⟩, ⟨1, 5, EvAction.view⟩]⟩).1) :=
  ⟨Prod.ext rfl rfl,
    C1_failed_rebuild_leaves_mixed_state (CoOccState.fresh 1)
      ((initCoOcc (CoOccState.fresh 1)
        ⟨[0], [⟨1, 0, EvAction.view⟩, ⟨1, 5, EvAction.view⟩]⟩).1)
      ⟨[0], [⟨1, 0, EvAction.view⟩, ⟨1, 5, EvAction.view⟩]⟩ "IndexError"
      (Prod.ext rfl rfl)⟩

/-- Counterexample for C1 as stated: after a successful rebuild over
catalog `[0]`, a rebuild over the new snapshot (catalog `[0,1,2]`, an
event on the out-of-range id 5) fails; a query for product 2 issued
after that failed rebuild raises `IndexError` (new mapping knows 2,
old probability matrix has no row 2), while under the last
successfully built state the same query raises `KeyError`
(`UnknownEntity`).  The post-failure state is observably neither the
old state nor a fully built new one. -/
theorem C1_counterexample :
    (initCoOcc (CoOccState.fresh 1) ⟨[0], [⟨1, 0, EvAction.view⟩]⟩).2 = none ∧
    (initCoOcc
      ((initCoOcc (CoOccState.fresh 1) ⟨[0], [⟨1, 0, EvAction.view⟩]⟩).1)
      ⟨[0, 1, 2], [⟨1, 0, EvAction.view⟩, ⟨1, 5, EvAction.view⟩]⟩).2 =
        some "IndexError" ∧
    coRecommend ((initCoOcc (CoOccState.fresh 1) ⟨[0], [⟨1, 0, EvAction.view⟩]⟩).1)
      (fun _ _ => []) 2 1 false = .error "KeyError" ∧
    coRecommend ((initCoOcc
        ((initCoOcc (CoOccState.fresh 1) ⟨[0], [⟨1, 0, EvAction.view⟩]⟩).1)
        ⟨[0, 1, 2], [⟨1, 0, EvAction.view⟩, ⟨1, 5, EvAction.view⟩]⟩).1)
      (fun _ _ => []) 2 1 false = .error "IndexError" :=
  ⟨rfl, rfl, rfl, rfl⟩

/-- C2 (amended): for the event set
`{(u1,p1,view),(u1,p2,view),(u2,p1,view),(u2,p2,click)}` the
per-product statistics pass always yields `views=2, clicks=0, ctr=0`
for `p1` and `views=1, clicks=1, ctr=1` for `p2`; the co-occurrence
rebuild indexes the matrix by raw product id, so it yields
`M[p1][p2] = M[p2][p1] = 2` at the dense positions when the ids are
themselves the dense indices (`p1 = 0`, `p2 = 1`, catalog `[0,1]`) —
and fails for ids that are not valid matrix indices (see the
counterexample). -/
theorem C2_scenario (u1 u2 p1 p2 : ℕ) (hp : p1 ≠ p2) :
    ((computeStats [⟨u1, p1, EvAction.view⟩, ⟨u1, p2, EvAction.view⟩,
        ⟨u2, p1, EvAction.view⟩, ⟨u2, p2, EvAction.click⟩]).map ProductStats.product_id =
      [p1, p2] ∧
     (computeStats [⟨u1, p1, EvAction.view⟩, ⟨u1, p2, EvAction.view⟩,
        ⟨u2, p1, EvAction.view⟩, ⟨u2, p2, EvAction.click⟩]).map ProductStats.views =
      [2, 1] ∧
     (computeStats [⟨u1, p1, EvAction.view⟩, ⟨u1, p2, EvAction.view⟩,
        ⟨u2, p1, EvAction.view⟩, ⟨u2, p2, EvAction.click⟩]).map ProductStats.clicks =
      [0, 1] ∧
     (computeStats [⟨u1, p1, EvAction.view⟩, ⟨u1, p2, EvAction.view⟩,
        ⟨u2, p1, EvAction.view⟩, ⟨u2, p2, EvAction.click⟩]).map ProductStats.ctr =
      [0, 1]) ∧
    ((initCoOcc (CoOccState.fresh 1)
        ⟨[0, 1], [⟨1, 0, EvAction.view⟩, ⟨1, 1, EvAction.view⟩,
                  ⟨2, 0, EvAction.view⟩, ⟨2, 1, EvAction.click⟩]⟩).2 = none ∧
     (initCoOcc (CoOccState.fresh 1)
        ⟨[0, 1], [⟨1, 0, EvAction.view⟩, ⟨1, 1, EvAction.view⟩,
                  ⟨2, 0, EvAction.view⟩, ⟨2, 1, EvAction.click⟩]⟩).1.matrix.entry 0 1 = 2 ∧
     (initCoOcc (CoOccState.fresh 1)
        ⟨[0, 1], [⟨1, 0, EvAction.view⟩, ⟨1, 1, EvAction.view⟩,
                  ⟨2, 0, EvAction.view⟩, ⟨2, 1, EvAction.click⟩]⟩).1.matrix.entry 1 0 = 2) := by
  have hp' : p2 ≠ p1 := hp.symm
  refine ⟨⟨?_, ?_, ?_, ?_⟩, ?_, ?_, ?_⟩
  · simp [computeStats, distinctKeys, hp, hp']
  · simp [computeStats, distinctKeys, hp, hp']
  · simp [computeStats, distinctKeys, hp, hp']
  · simp [computeStats, distinctKeys, hp, hp', calculate_ctr]
  · rfl
  · norm_num [initCoOcc_matrix_eq, groupByUser, distinctKeys, sessionPairs,
      aggregateSessions, updateMatrix, applyPairs, SizedMat.bumpChecked,
      SizedMat.bump, SizedMat.zeros]
  · norm_num [initCoOcc_matrix_eq, groupByUser, distinctKeys, sessionPairs,
      aggregateSessions, updateMatrix, applyPairs, SizedMat.bumpChecked,
      SizedMat.bump, SizedMat.zeros]

/-- Witness for C2 (amended) at `u1 = 1`, `u2 = 2`, `p1 = 0`, `p2 = 1`. -/
theorem C2_scenario_witness :
    (0 : ℕ) ≠ 1 ∧
    (computeStats [⟨1, 0, EvAction.view⟩, ⟨1, 1, EvAction.view⟩,
        ⟨2, 0, EvAction.view⟩, ⟨2, 1, EvAction.click⟩]).map ProductStats.views = [2, 1] ∧
    (computeStats [⟨1, 0, EvAction.view⟩, ⟨1, 1, EvAction.view⟩,
        ⟨2, 0, EvAction.view⟩, ⟨2, 1, EvAction.click⟩]).map ProductStats.ctr = [0, 1] :=
  ⟨by decide,
    (C2_scenario 1 2 0 1 (by decide)).1.2.1,
    (C2_scenario 1 2 0 1 (by decide)).1.2.2.2⟩

/-- Counterexample for C2 as stated: with catalog `[10, 20]` and the
scenario events on `p1 = 10`, `p2 = 20`, the rebuild indexes the 2×2
matrix with the raw ids 10 and 20, raises `IndexError`, and leaves the
entries at the dense positions of `p1` and `p2` at 0, not 2. -/
theorem C2_counterexample :
    (initCoOcc (CoOccState.fresh 1)
      ⟨[10, 20], [⟨1, 10, EvAction.view⟩, ⟨1, 20, EvAction.view⟩,
                  ⟨2, 10, EvAction.view⟩, ⟨2, 20, EvAction.click⟩]⟩).2 =
      some "IndexError" ∧
    (initCoOcc (CoOccState.fresh 1)
      ⟨[10, 20], [⟨1, 10, EvAction.view⟩, ⟨1, 20, EvAction.view⟩,
                  ⟨2, 10, EvAction.view⟩, ⟨2, 20, EvAction.click⟩]⟩).1.matrix.entry 0 1 = 0 ∧
    (initCoOcc (CoOccState.fresh 1)
      ⟨[10, 20], [⟨1, 10, EvAction.view⟩, ⟨1, 20, EvAction.view⟩,
                  ⟨2, 10, EvAction.view⟩, ⟨2, 20, EvAction.click⟩]⟩).1.matrix.entry 1 0 = 0 :=
  ⟨rfl, rfl, rfl⟩

/-- C3 (amended): for every input event set the matrix produced by a
co-occurrence rebuild is symmetric; its diagonal is zero provided no
user's pushed session list repeats a product id.  (The source skips
only same-position pairs, not same-value pairs, so a product occurring
twice in one user's events increments that product's diagonal —
see the counterexample.) -/
theorem C3_matrix_symmetric_and_diag (st0 : CoOccState) (db : DB) :
    (∀ i j, (initCoOcc st0 db).1.matrix.entry i j =
      (initCoOcc st0 db).1.matrix.entry j i) ∧
    ((∀ s ∈ (groupByUser db.events).map Prod.snd, s.Nodup) →
      ∀ i, (initCoOcc st0 db).1.matrix.entry i i = 0) := by
  constructor
  · intro i j
    rw [initCoOcc_matrix_eq]
    exact aggregateSessions_symm _ _ rfl (fun _ _ => rfl) i j
  · intro hnd i
    rw [initCoOcc_matrix_eq]
    exact aggregateSessions_diag _ _ hnd (fun _ => rfl) i

/-- Witness for C3 (amended) on catalog `[0,1]` with one user viewing
both products: the rebuilt matrix is symmetric and has zero diagonal. -/
theorem C3_matrix_witness :
    (∀ s ∈ (groupByUser [⟨1, 0, EvAction.view⟩, ⟨1, 1, EvAction.view⟩]).map Prod.snd,
      s.Nodup) ∧
    (initCoOcc (CoOccState.fresh 1)
      ⟨[0, 1], [⟨1, 0, EvAction.view⟩, ⟨1, 1, EvAction.view⟩]⟩).1.matrix.entry 0 1 =
    (initCoOcc (CoOccState.fresh 1)
      ⟨[0, 1], [⟨1, 0, EvAction.view⟩, ⟨1, 1, EvAction.view⟩]⟩).1.matrix.entry 1 0 ∧
    (initCoOcc (CoOccState.fresh 1)
      ⟨[0, 1], [⟨1, 0, EvAction.view⟩, ⟨1, 1, EvAction.view⟩]⟩).1.matrix.entry 0 0 = 0 :=
  ⟨by decide,
    (C3_matrix_symmetric_and_diag (CoOccState.fresh 1)
      ⟨[0, 1], [⟨1, 0, EvAction.view⟩, ⟨1, 1, EvAction.view⟩]⟩).1 0 1,
    (C3_matrix_symmetric_and_diag (CoOccState.fresh 1)
      ⟨[0, 1], [⟨1, 0, EvAction.view⟩, ⟨1, 1, EvAction.view⟩]⟩).2 (by decide) 0⟩

/-- Counterexample for C3 as stated: with catalog `[0]` and one user
viewing product 0 twice, the rebuild succeeds and leaves
`M[0][0] = 2 ≠ 0` — the diagonal is not zero for every input event
set. -/
theorem C3_counterexample :
    (initCoOcc (CoOccState.fresh 1)
      ⟨[0], [⟨1, 0, EvAction.view⟩, ⟨1, 0, EvAction.view⟩]⟩).2 = none ∧
    (initCoOcc (CoOccState.fresh 1)
      ⟨[0], [⟨1, 0, EvAction.view⟩, ⟨1, 0, EvAction.view⟩]⟩).1.matrix.entry 0 0 = 2 := by
  constructor
  · rfl
  · norm_num [initCoOcc_matrix_eq, groupByUser, distinctKeys, sessionPairs,
      aggregateSessions, updateMatrix, applyPairs, SizedMat.bumpChecked,
      SizedMat.bump, SizedMat.zeros]

/-- C5: every rebuilt co-occurrence matrix has nonnegative entries,
and for every `alpha > 0`, catalog size `n > 0` and matrix with
nonnegative entries the probability matrix
`P[i][j] = (M[i][j] + alpha) / (sum(M[i]) + alpha * n)` has each of its
`n` rows summing to exactly 1 over rational arithmetic. -/
theorem C5_probability_rows_sum_one :
    (∀ (st0 : CoOccState) (db : DB) (i j : ℕ),
      0 ≤ (initCoOcc st0 db).1.matrix.entry i j) ∧
    (∀ (alpha : ℚ) (n : ℕ) (m : SizedMat), 0 < alpha → 0 < n → m.cols = n →
      (∀ i j, 0 ≤ m.entry i j) → ∀ i, i < n →
        ∑ j ∈ Finset.range n, (calcProbMatrix alpha n m).entry i j = 1) := by
  constructor
  · exact fun st0 db => initCoOcc_matrix_nonneg st0 db
  · intro alpha n m halpha hn hcols hnn i hi
    have hn' : (0 : ℚ) < (n : ℚ) := by
      exact_mod_cast hn
    have hD : 0 < m.rowSum i + alpha * n := by
      have h1 : 0 ≤ m.rowSum i := Finset.sum_nonneg (fun j _ => hnn i j)
      have h2 : 0 < alpha * n := mul_pos halpha hn'
      linarith
    calc ∑ j ∈ Finset.range n, (calcProbMatrix alpha n m).entry i j
        = ∑ j ∈ Finset.range n,
            (m.entry i j + alpha) / (m.rowSum i + alpha * n) := by
          refine Finset.sum_congr rfl ?_
          intro j hj
          show (if i < n ∧ j < n then
              (m.entry i j + alpha) / (m.rowSum i + alpha * n) else 0) = _
          rw [if_pos ⟨hi, Finset.mem_range.mp hj⟩]
      _ = (∑ j ∈ Finset.range n, (m.entry i j + alpha)) /
            (m.rowSum i + alpha * n) := (Finset.sum_div _ _ _).symm
      _ = (m.rowSum i + alpha * n) / (m.rowSum i + alpha * n) := by
          rw [Finset.sum_add_distrib, Finset.sum_const, Finset.card_range]
          unfold SizedMat.rowSum
          rw [hcols, nsmul_eq_mul, mul_comm (n : ℚ) alpha]
      _ = 1 := div_self (ne_of_gt hD)

/-- Witness for C5: the rebuilt matrix over an empty event set is
nonnegative, and with `alpha = 1`, `n = 2` on the zero matrix both
probability rows sum to 1. -/
theorem C5_probability_witness :
    (0 ≤ (initCoOcc (CoOccState.fresh 1) ⟨[0], []⟩).1.matrix.entry 0 0) ∧
    (0 < (1 : ℚ) ∧ 0 < 2 ∧ (SizedMat.zeros 2 2).cols = 2 ∧
      ∑ j ∈ Finset.range 2, (calcProbMatrix 1 2 (SizedMat.zeros 2 2)).entry 0 j = 1) :=
  ⟨C5_probability_rows_sum_one.1 (CoOccState.fresh 1) ⟨[0], []⟩ 0 0,
    one_pos, Nat.succ_pos 1, rfl,
    C5_probability_rows_sum_one.2 1 2 (SizedMat.zeros 2 2) one_pos (Nat.succ_pos 1)
      rfl (fun _ _ => le_refl 0) 0 (Nat.succ_pos 1)⟩

/-- C9: each periodic loop iteration runs the component's immediate
refresh and then sleeps.  The stats loop sleeps the configured stats
interval as claimed, but the recommender loop also sleeps
`stats_refresh_time` (updater.py line 38), not
`recommender_refresh_time`: evaluated at
`Updater(stats_refresh_time=300, recommender_refresh_time=500)`, both
loops sleep 300 seconds and the configured recommender interval 500 is
never used — contradicting the claim and the `Updater` docstrings. -/
theorem C9_periodic_loops_sleep_stats_interval :
    periodicStatsUpdateIter ⟨300, 500⟩ = [UpdAction.refreshStats, UpdAction.sleep 300] ∧
    periodicRecommenderUpdateIter ⟨300, 500⟩ =
      [UpdAction.refreshRecommender, UpdAction.sleep 300] :=
  ⟨rfl, rfl⟩

/-- C4: a `recommend` on the user-based recommender for a `user_id`
absent from the current user mapping returns the empty list without
raising, and a `recommend` on the co-occurrence recommender for a
`product_id` absent from the current product mapping raises
(`KeyError` from the `product_id_to_i` dict lookup — the spec's
`UnknownEntity`), in every state and for every `top_n` / `sample`
flag. -/
theorem C4_unknown_entity (stU : UserState) (stC : CoOccState)
    (sampler : ℕ → ℕ → List ℕ) (uid pid top_n : ℕ) (sample : Bool)
    (hu : idLookup stU.user_ids uid = none)
    (hp : idLookup stC.ids pid = none) :
    userRecommend stU uid top_n = .ok [] ∧
    coRecommend stC sampler pid top_n sample = .error "KeyError" := by
  refine ⟨?_, ?_⟩
  · unfold userRecommend
    rw [hu]
  · unfold coRecommend
    rw [hp]

/-- Witness for C4 on fresh (empty-mapping) recommenders. -/
theorem C4_unknown_entity_witness :
    idLookup UserState.fresh.user_ids 5 = none ∧
    idLookup (CoOccState.fresh 1).ids 7 = none ∧
    userRecommend UserState.fresh 5 3 = .ok [] ∧
    coRecommend (CoOccState.fresh 1) (fun _ _ => []) 7 3 false = .error "KeyError" :=
  ⟨rfl, rfl,
    (C4_unknown_entity UserState.fresh (CoOccState.fresh 1) (fun _ _ => []) 5 7 3 false rfl rfl).1,
    (C4_unknown_entity UserState.fresh (CoOccState.fresh 1) (fun _ _ => []) 5 7 3 false rfl rfl).2⟩

/-- C10: in sample mode the product-id-to-index dict lookup still runs
before the sampling branch, so for any product id outside the current
mapping the call raises (`KeyError`), for every sampler; when the
lookup succeeds (and `top_n` does not exceed the catalog, else
`random.sample` raises `ValueError`), the result is exactly the
sampled indices mapped through `i_to_product_id` — an expression that
never reads a probability-matrix entry — and every ok result consists
of catalog product ids only. -/
theorem C10_sample_mode (st0 st : CoOccState) (db : DB)
    (sampler : ℕ → ℕ → List ℕ) (top_n : ℕ)
    (hinit : initCoOcc st0 db = (st, none)) :
    (∀ q, q ∉ db.products →
      coRecommend st sampler q top_n true = .error "KeyError") ∧
    (∀ pid, pid ∈ db.products → top_n ≤ st.n_products →
      coRecommend st sampler pid top_n true =
        mapIdxToIds st.ids (sampler st.n_products top_n)) ∧
    (∀ pid l, coRecommend st sampler pid top_n true = .ok l →
      ∀ x ∈ l, x ∈ db.products) := by
  obtain ⟨hids, hn, hProws, hPcols⟩ := initCoOcc_ok_shapes hinit
  refine ⟨?_, ?_, ?_⟩
  · intro q hq
    refine coRecommend_lookup_none ?_
    rw [hids]
    exact idLookup_eq_none_iff.mpr hq
  · intro pid hpid htop
    obtain ⟨i, hlook⟩ := idLookup_isSome_of_mem
      (show pid ∈ st.ids by rw [hids]; exact hpid)
    rw [coRecommend_lookup_some hlook]
    have hi : i < st.probability_matrix.rows := by
      have := idLookup_lt hlook
      rw [hids] at this
      omega
    rw [if_pos hi, if_pos rfl, if_pos htop]
  · intro pid l h x hx
    cases hlook : idLookup st.ids pid with
    | none =>
      rw [coRecommend_lookup_none hlook] at h
      cases h
    | some i =>
      rw [coRecommend_lookup_some hlook] at h
      by_cases hi : i < st.probability_matrix.rows
      · rw [if_pos hi, if_pos rfl] at h
        by_cases ht : top_n ≤ st.n_products
        · rw [if_pos ht] at h
          obtain ⟨j, _, hjget⟩ := mapIdxToIds_mem h x hx
          rw [← hids]
          exact List.getElem?_mem hjget
        · rw [if_neg ht] at h
          cases h
      · rw [if_neg hi] at h
        cases h

/-- Witness for C10 on a successfully rebuilt state over catalog
`[0, 1]` with no events: sampling for the unknown product 5 raises,
and sampling for the known product 0 returns the mapped sampler
output. -/
theorem C10_sample_mode_witness :
    initCoOcc (CoOccState.fresh 1) ⟨[0, 1], []⟩ =
      ((initCoOcc (CoOccState.fresh 1) ⟨[0, 1], []⟩).1, none) ∧
    (5 : ℕ) ∉ [0, 1] ∧
    coRecommend ((initCoOcc (CoOccState.fresh 1) ⟨[0, 1], []⟩).1)
      (fun _ _ => [0]) 5 1 true = .error "KeyError" ∧
    (0 : ℕ) ∈ [0, 1] ∧
    1 ≤ ((initCoOcc (CoOccState.fresh 1) ⟨[0, 1], []⟩).1).n_products ∧
    coRecommend ((initCoOcc (CoOccState.fresh 1) ⟨[0, 1], []⟩).1)
      (fun _ _ => [0]) 0 1 true =
      mapIdxToIds ((initCoOcc (CoOccState.fresh 1) ⟨[0, 1], []⟩).1).ids
        ((fun _ _ => [0]) ((initCoOcc (CoOccState.fresh 1) ⟨[0, 1], []⟩).1).n_products 1) :=
  ⟨Prod.ext rfl rfl, by decide,
    (C10_sample_mode (CoOccState.fresh 1) _ ⟨[0, 1], []⟩ (fun _ _ => [0]) 1
      (Prod.ext rfl rfl)).1 5 (by decide),
    by decide, by decide,
    (C10_sample_mode (CoOccState.fresh 1) _ ⟨[0, 1], []⟩ (fun _ _ => [0]) 1
      (Prod.ext rfl rfl)).2.1 0 (by decide) (by decide)⟩

/-- C6 (amended): after a successful rebuild, for every `product_id` in
the mapping and every `top_n ≥ 1`, the non-sampled recommend result
never contains `product_id` and has exactly `min top_n (n - 1)` items
(`n` = catalog size).  Hence it has at most `top_n` items, and it has
fewer than `top_n` exactly when the catalog without the query product
is smaller than `top_n` (`n ≤ top_n`) — not only when the whole
catalog is smaller, and for `top_n = 0` the loop can still emit one
item (see the counterexample). -/
theorem C6_recommend_excludes_self (st0 st : CoOccState) (db : DB)
    (sampler : ℕ → ℕ → List ℕ) (pid top_n : ℕ)
    (hinit : initCoOcc st0 db = (st, none)) (hnd : db.products.Nodup)
    (hmem : pid ∈ db.products) (htop : 1 ≤ top_n) :
    ∃ l, coRecommend st sampler pid top_n false = .ok l ∧
      pid ∉ l ∧ l.length = min top_n (db.products.length - 1) := by
  obtain ⟨hids, hn, hProws, hPcols⟩ := initCoOcc_ok_shapes hinit
  obtain ⟨i, hlook⟩ := idLookup_isSome_of_mem
    (show pid ∈ st.ids by rw [hids]; exact hmem)
  have hi : i < db.products.length := by
    have h := idLookup_lt hlook
    rw [hids] at h
    exact h
  rw [coRecommend_lookup_some hlook,
    if_pos (show i < st.probability_matrix.rows by rw [hProws]; exact hi),
    if_neg (by simp : ¬((false : Bool) = true))]
  set sorted := argsortDesc (fun j => st.probability_matrix.entry i j)
    st.probability_matrix.cols with hsorted
  have hperm : sorted.Perm (List.range db.products.length) := by
    rw [← hPcols]
    exact argsortDesc_perm _ _
  have hpicked := @pickRecs_length i top_n sorted []
    (by simpa using htop)
  have hfilterlen : (sorted.filter (fun r => r != i)).length =
      db.products.length - 1 := by
    rw [(hperm.filter _).length_eq]
    exact length_filter_ne_range hi
  have hlen : (pickRecs i top_n sorted []).length =
      min top_n (db.products.length - 1) := by
    rw [hpicked, hfilterlen]
    norm_num
  have hsub : ∀ x ∈ pickRecs i top_n sorted [], x < st.ids.length := by
    intro x hx
    rcases pickRecs_mem sorted [] x hx with h | h
    · simp at h
    · have hxr : x ∈ List.range db.products.length := hperm.mem_iff.mp h
      rw [hids]
      exact List.mem_range.mp hxr
  obtain ⟨l, hok, hlenl, hmeml⟩ := mapIdxToIds_ok st.ids _ hsub
  refine ⟨l, hok, ?_, by rw [hlenl, hlen]⟩
  intro hpin
  obtain ⟨j, hj, hjget⟩ := hmeml pid hpin
  have hnd' : st.ids.Nodup := by rw [hids]; exact hnd
  have hii : idLookup st.ids pid = some j := idLookup_of_getElem? hnd' hjget
  have hji : j = i := by
    rw [hlook] at hii
    exact (Option.some.inj hii).symm
  subst hji
  exact @pickRecs_not_self j top_n sorted [] (by simp) hj

/-- Witness for C6 (amended): catalog `[0, 1, 2]`, no events,
`product_id = 0`, `top_n = 2` — the result exists, excludes 0 and has
`min 2 2 = 2` items. -/
theorem C6_recommend_witness :
    initCoOcc (CoOccState.fresh 1) ⟨[0, 1, 2], []⟩ =
      ((initCoOcc (CoOccState.fresh 1) ⟨[0, 1, 2], []⟩).1, none) ∧
    ([0, 1, 2] : List ℕ).Nodup ∧
    (0 : ℕ) ∈ [0, 1, 2] ∧
    1 ≤ 2 ∧
    ∃ l, coRecommend ((initCoOcc (CoOccState.fresh 1) ⟨[0, 1, 2], []⟩).1)
        (fun _ _ => []) 0 2 false = .ok l ∧
      0 ∉ l ∧ l.length = min 2 (([0, 1, 2] : List ℕ).length - 1) :=
  ⟨Prod.ext rfl rfl, by decide, by decide, by decide,
    C6_recommend_excludes_self (CoOccState.fresh 1)
      ((initCoOcc (CoOccState.fresh 1) ⟨[0, 1, 2], []⟩).1) ⟨[0, 1, 2], []⟩
      (fun _ _ => []) 0 2 (Prod.ext rfl rfl) (by decide) (by decide) (by decide)⟩

/-- Counterexample for C6 as stated: on a successfully rebuilt state
over catalog `[0, 1]` (2 products), `recommend(0, top_n = 2)` returns
the single item `[1]` — fewer than `top_n` items even though the
catalog is not smaller than `top_n`, refuting "fewer than `top_n`
only when the catalog itself is smaller than `top_n`". -/
theorem C6_counterexample :
    ¬ (∀ top_n : ℕ, ∀ l : List ℕ,
        coRecommend ((initCoOcc (CoOccState.fresh 1) ⟨[0, 1], []⟩).1)
          (fun _ _ => []) 0 top_n false = .ok l →
        0 ∉ l ∧ l.length ≤ top_n ∧
          (l.length < top_n → ([0, 1] : List ℕ).length < top_n)) := by
  intro h
  have heval : coRecommend ((initCoOcc (CoOccState.fresh 1) ⟨[0, 1], []⟩).1)
      (fun _ _ => []) 0 2 false = .ok [1] := by
    norm_num [coRecommend, initCoOcc_eq, aggregateSessions, groupByUser,
      distinctKeys, calcProbMatrix, SizedMat.rowSum, SizedMat.zeros, idLookup,
      List.findIdx?_cons, argsortDesc, argsortAsc, List.insertionSort,
      List.orderedInsert, pickRecs, mapIdxToIds,
      Finset.sum_range_succ, Finset.sum_range_zero]
  have h2 := h 2 [1] heval
  exact absurd (h2.2.2 (by norm_num)) (by norm_num)

/-- C7: after a user-similarity rebuild, for every user with at least
one recorded interaction (hence present in the mapping), any
successful `recommend(user_id, top_n)` returns at most `top_n`
products, and every returned product has a strictly positive
accumulated similarity-weighted score and is not one the user has
interacted with (`U[user_i][j] > 0` fails for its column `j`). -/
theorem C7_user_recommend_no_interacted (st0 : UserState) (db : DB)
    (cos : ℕ → ℕ → ℚ) (uid top_n : ℕ) (l : List ℕ)
    (hnd : db.products.Nodup)
    (hint : ∃ e ∈ db.events, e.user_id = uid)
    (hok : userRecommend (initUser st0 db cos) uid top_n = .ok l) :
    l.length ≤ top_n ∧
    ∃ user_i, idLookup (initUser st0 db cos).user_ids uid = some user_i ∧
      ∃ scores,
        accumScores (fun v => (initUser st0 db cos).similarity_matrix.entry user_i v)
          (initUser st0 db cos).user_item_matrix
          (initUser st0 db cos).product_ids.length (fun _ => 0)
          (similarUsers (initUser st0 db cos).similarity_matrix user_i) = .ok scores ∧
        ∀ pid ∈ l, ∃ j, idLookup (initUser st0 db cos).product_ids pid = some j ∧
          ¬(0 < (initUser st0 db cos).user_item_matrix.entry user_i j) ∧
          0 < scores j := by
  set st := initUser st0 db cos with hst
  obtain ⟨e, he, heu⟩ := hint
  have huid : uid ∈ st.user_ids := by
    rw [hst, (initUser_fields st0 db cos).1]
    exact mem_distinctKeys.mpr (List.mem_map.mpr ⟨e, he, heu⟩)
  obtain ⟨user_i, hlook⟩ := idLookup_isSome_of_mem huid
  rw [userRecommend_lookup_some hlook] at hok
  by_cases h1 : user_i < st.similarity_matrix.rows
  · rw [if_pos h1] at hok
    rcases hacc : accumScores (fun v => st.similarity_matrix.entry user_i v)
        st.user_item_matrix st.product_ids.length (fun _ => 0)
        (similarUsers st.similarity_matrix user_i) with e' | scores
    · rw [hacc] at hok
      exact Except.noConfusion hok
    · rw [hacc] at hok
      dsimp only at hok
      by_cases h2 : user_i < st.user_item_matrix.rows
      · rw [if_pos h2] at hok
        refine ⟨?_, user_i, hlook, scores, hacc, ?_⟩
        · have hlr := mapIdxToIds_length hok
          calc l.length = _ := hlr
            _ ≤ ((argsortDesc _ st.product_ids.length).take top_n).length :=
              List.length_filter_le _ _
            _ ≤ top_n := by
              rw [List.length_take]
              exact min_le_left _ _
        · intro pid hpid
          obtain ⟨idx, hidxmem, hidxget⟩ := mapIdxToIds_mem hok pid hpid
          have hidx2 := List.mem_filter.mp hidxmem
          have hpos : 0 < (if 0 < st.user_item_matrix.entry user_i idx
              then (-1 : ℚ) else scores idx) :=
            of_decide_eq_true hidx2.2
          by_cases hM : 0 < st.user_item_matrix.entry user_i idx
          · rw [if_pos hM] at hpos
            norm_num at hpos
          · rw [if_neg hM] at hpos
            refine ⟨idx, ?_, hM, hpos⟩
            have hndp : st.product_ids.Nodup := by
              rw [hst, (initUser_fields st0 db cos).2.1]
              exact hnd
            exact idLookup_of_getElem? hndp hidxget
      · rw [if_neg h2] at hok
        exact Except.noConfusion hok
  · rw [if_neg h1] at hok
    exact Except.noConfusion hok

/-- Witness for C7: catalog `[0, 1]`, user 1 interacted with product 0,
user 2 with product 1, constant cosine 1 — `recommend(1, 5)` returns
`[1]` (user 2's product), which user 1 never interacted with. -/
theorem C7_user_recommend_witness :
    ([0, 1] : List ℕ).Nodup ∧
    (∃ e ∈ [(⟨1, 0, EvAction.view⟩ : Event), ⟨2, 1, EvAction.view⟩], e.user_id = 1) ∧
    userRecommend (initUser UserState.fresh
      ⟨[0, 1], [⟨1, 0, EvAction.view⟩, ⟨2, 1, EvAction.view⟩]⟩ (fun _ _ => 1)) 1 5 =
      .ok [1] ∧
    ([1] : List ℕ).length ≤ 5 := by
  have heval : userRecommend (initUser UserState.fresh
      ⟨[0, 1], [⟨1, 0, EvAction.view⟩, ⟨2, 1, EvAction.view⟩]⟩ (fun _ _ => 1)) 1 5 =
      .ok [1] := by
    norm_num [userRecommend, initUser, computeSimilarityMatrix, buildUserItemMatrix,
      distinctKeys, idLookup, List.findIdx?_cons, similarUsers, accumScores,
      argsortDesc, argsortAsc, List.insertionSort, List.orderedInsert,
      mapIdxToIds, SizedMat.bump, SizedMat.zeros]
  exact ⟨by decide, ⟨⟨1, 0, EvAction.view⟩, by decide, rfl⟩, heval,
    (C7_user_recommend_no_interacted UserState.fresh
      ⟨[0, 1], [⟨1, 0, EvAction.view⟩, ⟨2, 1, EvAction.view⟩]⟩ (fun _ _ => 1) 1 5 [1]
      (by decide) ⟨⟨1, 0, EvAction.view⟩, by decide, rfl⟩ heval).1⟩

/-- C8 (amended): when the similarity computation of a rebuild fails
(empty interaction matrix: here an empty product catalog) the
similarity matrix keeps its previous value (empty on a fresh
recommender), and then `recommend` returns the empty list only for
user ids absent from the mapping; for a user id present in the mapping
it raises `IndexError` reading the missing similarity row, rather than
returning an empty result. -/
theorem C8_degenerate_similarity (st0 : UserState) (db : DB)
    (cos : ℕ → ℕ → ℚ) (uid top_n : ℕ)
    (hprod : db.products = [])
    (hsim : st0.similarity_matrix.rows = 0) :
    ((∃ e ∈ db.events, e.user_id = uid) →
      userRecommend (initUser st0 db cos) uid top_n = .error "IndexError") ∧
    ((∀ e ∈ db.events, e.user_id ≠ uid) →
      userRecommend (initUser st0 db cos) uid top_n = .ok []) := by
  have hsim' : (initUser st0 db cos).similarity_matrix = st0.similarity_matrix := by
    have hcols : (buildUserItemMatrix (distinctKeys (db.events.map (·.user_id)))
        db.products db.events).cols = 0 := by
      rw [(buildUserItemMatrix_shape _ _ _).2, hprod]
      rfl
    unfold initUser computeSimilarityMatrix
    dsimp only
    split
    · rfl
    · rename_i hcond
      exact absurd (Or.inr hcols) hcond
  constructor
  · intro hint
    obtain ⟨e, he, heu⟩ := hint
    have huid : uid ∈ (initUser st0 db cos).user_ids := by
      rw [(initUser_fields st0 db cos).1]
      exact mem_distinctKeys.mpr (List.mem_map.mpr ⟨e, he, heu⟩)
    obtain ⟨user_i, hlook⟩ := idLookup_isSome_of_mem huid
    have hneg : ¬(user_i < (initUser st0 db cos).similarity_matrix.rows) := by
      rw [hsim', hsim]
      omega
    rw [userRecommend_lookup_some hlook, if_neg hneg]
  · intro hall
    refine userRecommend_lookup_none ?_
    rw [(initUser_fields st0 db cos).1]
    refine idLookup_eq_none_iff.mpr ?_
    intro hm
    obtain ⟨e, he, heq⟩ := List.mem_map.mp (mem_distinctKeys.mp hm)
    exact hall e he heq

/-- Witness for C8 (amended): empty catalog, one event by user 7 —
`recommend(7, 5)` raises `IndexError`, `recommend(9, 5)` returns `[]`. -/
theorem C8_degenerate_witness :
    userRecommend (initUser UserState.fresh ⟨[], [⟨7, 3, EvAction.view⟩]⟩
      (fun _ _ => 0)) 7 5 = .error "IndexError" ∧
    userRecommend (initUser UserState.fresh ⟨[], [⟨7, 3, EvAction.view⟩]⟩
      (fun _ _ => 0)) 9 5 = .ok [] :=
  ⟨(C8_degenerate_similarity UserState.fresh ⟨[], [⟨7, 3, EvAction.view⟩]⟩
      (fun _ _ => 0) 7 5 rfl rfl).1 ⟨⟨7, 3, EvAction.view⟩, by decide, rfl⟩,
    (C8_degenerate_similarity UserState.fresh ⟨[], [⟨7, 3, EvAction.view⟩]⟩
      (fun _ _ => 0) 9 5 rfl rfl).2 (by decide)⟩

/-- Counterexample for C8 as stated: after the degenerate rebuild
(catalog empty, one event by user 7) the user 7 IS present in the
current mapping, yet `recommend(7, 5)` raises `IndexError` instead of
returning an empty result. -/
theorem C8_counterexample :
    idLookup ((initUser UserState.fresh ⟨[], [⟨7, 3, EvAction.view⟩]⟩
      (fun _ _ => 0)).user_ids) 7 = some 0 ∧
    userRecommend (initUser UserState.fresh ⟨[], [⟨7, 3, EvAction.view⟩]⟩
      (fun _ _ => 0)) 7 5 = .error "IndexError" :=
  ⟨rfl, rfl⟩

end Bloom
